import Mathlib

/-!
# Change-tracking replay engine of `io_realm_internal_SharedGroup.cpp`

A shallow embedding of `ModifiedRowParser` (the transaction-log observer) and of the two
query loops of `Java_io_realm_internal_SharedGroup_nativeAdvanceRead`.

Conventions of the embedding

* `std::vector<std::vector<size_t>>` is `List (List Nat)`; `size_t` values are naturals and the
  arithmetic the handlers perform on row and table indices is taken modulo `2 ^ 64` (`wadd`,
  `wsub`). Sizes of vectors and iterator positions are naturals.
* `v[i]` with `i` outside the vector has no defined result: the handler returns `none`.
  A `noexcept` handler whose `resize` throws does not return either (the process is
  terminated), and a move that runs outside the vector has no defined result: `none` as well.
  Exhaustion of memory below `max_size` is not modelled.
* A handler that completes returns `some (b, s)`: `b` is the C++ `bool` it returns and `s` the
  parser state it leaves behind.
* C++ parameters that the source leaves unnamed (they are ignored) are omitted.
-/

namespace ModifiedRowParser

/-- Number of values of a `size_t`. -/
def SIZE_MOD : Nat := 2 ^ 64

/-- Unsigned addition `a + b` of two `size_t` values. -/
def wadd (a b : Nat) : Nat := (a + b) % SIZE_MOD

/-- Unsigned subtraction `a - b` of two `size_t` values (wraps below zero). -/
def wsub (a b : Nat) : Nat := (a % SIZE_MOD + (SIZE_MOD - b % SIZE_MOD)) % SIZE_MOD

/-- The fields of `ModifiedRowParser`: the selection cursor and the per-table dirty rows. -/
structure State where
  current_table : Nat
  modified : List (List Nat)
deriving DecidableEq, Repr

/-- A freshly constructed parser: `current_table = 0` and an empty `modified`. -/
def State.fresh : State := { current_table := 0, modified := [] }

/-- Result of a handler: `none` when it indexes a vector out of range or does not return,
otherwise the returned `bool` and the state after the call. -/
abbrev Res := Option (Bool × State)

/-- The value of `std::vector<std::vector<size_t>>::max_size()`, the largest size `resize`
accepts; for a larger one it throws `std::length_error`. With 64-bit pointers and a
`std::vector<size_t>` of three pointers this is `PTRDIFF_MAX / 24` (a library with a larger
`max_size` throws `std::bad_alloc` on such a request instead). -/
def max_size : Nat := (2 ^ 63 - 1) / 24

/-- `std::vector::resize(n)`: truncate to `n` entries or pad with value-initialised ones. -/
def resize {α : Type} (dflt : α) (v : List α) (n : Nat) : List α :=
  v.take n ++ List.replicate (n - v.length) dflt

/-- Move assignment `v[dst] = std::move(v[src])` between two elements of the outer vector: the
destination receives the source's rows and the moved-from vector is left empty (what libstdc++
and libc++ do; in particular a self-move empties the element). -/
def moveAssign (v : List (List Nat)) (dst src : Nat) : List (List Nat) :=
  (v.set dst (v.getD src [])).set src []

/-- The algorithm `std::move(first, last, d_first)` on positions of one vector: performs
`*(d_first + n) = std::move(*(first + n))` for `n = 0, 1, ...` in increasing order, `cnt` times. -/
def moveRange : Nat → Nat → Nat → List (List Nat) → List (List Nat)
  | 0, _, _, v => v
  | cnt + 1, first, d_first, v => moveRange cnt (first + 1) (d_first + 1) (moveAssign v d_first first)

/-- The loop `for (i = table_ndx; i < table_ndx + num_tables; ++i) modified[i].clear()`,
with `cnt` iterations left. -/
def clearRange : Nat → Nat → List (List Nat) → List (List Nat)
  | 0, _, v => v
  | cnt + 1, i, v => clearRange cnt (i + 1) (v.set i [])

/-- Embedding of `insert_group_level_table(table_ndx, num_tables, StringData)`, a `noexcept`
handler. When `modified.size() + num_tables` exceeds `max_size` the call has no result: below
`2 ^ 64` the `resize` throws, and from `2 ^ 64` on the `size_t` sum wraps, the vector is
resized to the wrapped value and the move writes outside it. -/
def insert_group_level_table (s : State) (table_ndx num_tables : Nat) : Res :=
  if table_ndx < s.modified.length then
    if s.modified.length + num_tables ≤ max_size then
      let count := s.modified.length - table_ndx
      let v1 := resize [] s.modified (s.modified.length + num_tables)
      let v2 := moveRange count table_ndx (table_ndx + num_tables) v1
      let v3 := clearRange num_tables table_ndx v2
      some (true, { s with modified := v3 })
    else
      none
  else
    some (true, s)

/-- Embedding of `erase_group_level_table(table_ndx, num_tables)`. The source range
`[begin + table_ndx + num_tables, end)` has `size - (table_ndx + num_tables)` elements and none
when it is inverted. When `table_ndx + num_tables` reaches `2 ^ 64` the iterator sum wraps to a
position below `table_ndx`, the source range is longer than the room from `table_ndx` on and
the move writes past the end of the vector: no defined result. -/
def erase_group_level_table (s : State) (table_ndx num_tables : Nat) : Res :=
  if table_ndx < s.modified.length then
    if table_ndx + num_tables < SIZE_MOD then
      let v1 := moveRange (s.modified.length - (table_ndx + num_tables))
        (table_ndx + num_tables) table_ndx s.modified
      let v2 := resize [] v1 (v1.length - min (v1.length - table_ndx) num_tables)
      some (true, { s with modified := v2 })
    else
      none
  else
    some (true, s)

/-- Embedding of `rename_group_level_table(size_t, StringData)`. -/
def rename_group_level_table (s : State) : Res := some (true, s)

/-- Embedding of `select_table(group_level_ndx, int, const size_t*)`, a `noexcept` handler.
The new size `current_table + 1` is a `size_t` sum; when it exceeds `max_size` the `resize`
throws and the call has no result. -/
def select_table (s : State) (group_level_ndx : Nat) : Res :=
  if group_level_ndx ≥ s.modified.length then
    if wadd group_level_ndx 1 ≤ max_size then
      some (true, { current_table := group_level_ndx,
                    modified := resize [] s.modified (wadd group_level_ndx 1) })
    else
      none
  else
    some (true, { s with current_table := group_level_ndx })

/-- Embedding of the private `mark_dirty(row_ndx)`: the outer vector is indexed with `row_ndx`. -/
def mark_dirty (s : State) (row_ndx : Nat) : Res :=
  match s.modified[row_ndx]? with
  | none => none
  | some vec =>
    if row_ndx ∈ vec then some (true, s)
    else some (true, { s with modified := s.modified.set row_ndx (vec ++ [row_ndx]) })

/-- The unordered loop of `insert_empty_rows`: iteration `i` calls `mark_dirty(row_ndx + i)` and
`mark_dirty(last_row_ndx - i - 1)`; `cnt` iterations are left. -/
def insert_unordered_loop (row_ndx last_row_ndx : Nat) : Nat → Nat → State → Option State
  | 0, _, s => some s
  | cnt + 1, i, s =>
    match mark_dirty s (wadd row_ndx i) with
    | none => none
    | some (_, s1) =>
      match mark_dirty s1 (wsub (wsub last_row_ndx i) 1) with
      | none => none
      | some (_, s2) => insert_unordered_loop row_ndx last_row_ndx cnt (i + 1) s2

/-- The loop `for (auto& row : rows) if (row >= row_ndx) row += num_rows;`. -/
def shift_up (row_ndx num_rows : Nat) (rows : List Nat) : List Nat :=
  rows.map (fun row => if row ≥ row_ndx then wadd row num_rows else row)

/-- The loop `for (i = 0; i < num_rows; ++i) rows.push_back(i + row_ndx);`, `cnt` iterations left. -/
def push_new_rows (row_ndx : Nat) : Nat → Nat → List Nat → List Nat
  | 0, _, rows => rows
  | cnt + 1, i, rows => push_new_rows row_ndx cnt (i + 1) (rows ++ [wadd i row_ndx])

/-- Embedding of `insert_empty_rows(row_ndx, num_rows, last_row_ndx, unordered)`. -/
def insert_empty_rows (s : State) (row_ndx num_rows last_row_ndx : Nat) (unordered : Bool) : Res :=
  if unordered then
    match insert_unordered_loop row_ndx last_row_ndx num_rows 0 s with
    | none => none
    | some s1 => some (true, s1)
  else
    match s.modified[s.current_table]? with
    | none => none
    | some rows =>
      let rows1 := shift_up row_ndx num_rows rows
      let rows2 := push_new_rows row_ndx num_rows 0 rows1
      some (true, { s with modified := s.modified.set s.current_table rows2 })

/-- The unordered loop of `erase_rows`, reading position `p` of the vector being rewritten:
`if (row > last_row_ndx - num_rows) ++out; else rows[out++] = row;` with `cnt` elements left. -/
def erase_unordered_loop (num_rows last_row_ndx : Nat) : Nat → Nat → Nat → List Nat → List Nat × Nat
  | 0, _, out, rows => (rows, out)
  | cnt + 1, p, out, rows =>
    let row := rows.getD p 0
    if row > wsub last_row_ndx num_rows then
      erase_unordered_loop num_rows last_row_ndx cnt (p + 1) (out + 1) rows
    else
      erase_unordered_loop num_rows last_row_ndx cnt (p + 1) (out + 1) (rows.set out row)

/-- The loop `for (i = 0; i < num_rows; ++i) mark_dirty(row_ndx + i);`, `cnt` iterations left. -/
def mark_dirty_loop (row_ndx : Nat) : Nat → Nat → State → Option State
  | 0, _, s => some s
  | cnt + 1, i, s =>
    match mark_dirty s (wadd row_ndx i) with
    | none => none
    | some (_, s1) => mark_dirty_loop row_ndx cnt (i + 1) s1

/-- The ordered loop of `erase_rows`, reading position `p` of the vector being rewritten:
a row with `row >= row_ndx && row < row_ndx - num_rows` is skipped, another row with
`row >= row_ndx` is stored as `row - num_rows`, any other row is stored unchanged. -/
def erase_ordered_loop (row_ndx num_rows : Nat) : Nat → Nat → Nat → List Nat → List Nat × Nat
  | 0, _, out, rows => (rows, out)
  | cnt + 1, p, out, rows =>
    let row := rows.getD p 0
    if row ≥ row_ndx ∧ row < wsub row_ndx num_rows then
      erase_ordered_loop row_ndx num_rows cnt (p + 1) out rows
    else if row ≥ row_ndx then
      erase_ordered_loop row_ndx num_rows cnt (p + 1) (out + 1) (rows.set out (wsub row num_rows))
    else
      erase_ordered_loop row_ndx num_rows cnt (p + 1) (out + 1) (rows.set out row)

/-- Embedding of `erase_rows(row_ndx, num_rows, last_row_ndx, unordered)`. -/
def erase_rows (s : State) (row_ndx num_rows last_row_ndx : Nat) (unordered : Bool) : Res :=
  match s.modified[s.current_table]? with
  | none => none
  | some rows =>
    if unordered then
      let r := erase_unordered_loop num_rows last_row_ndx rows.length 0 0 rows
      match mark_dirty_loop row_ndx num_rows 0
          { s with modified := s.modified.set s.current_table r.1 } with
      | none => none
      | some s1 => some (true, s1)
    else
      let r := erase_ordered_loop row_ndx num_rows rows.length 0 0 rows
      some (true, { s with modified := s.modified.set s.current_table (r.1.take r.2) })

/-- Embedding of `clear_table()`. -/
def clear_table (s : State) : Res :=
  match s.modified[s.current_table]? with
  | none => none
  | some _ => some (true, { s with modified := s.modified.set s.current_table [] })

/-- Embedding of `add_int_to_column(size_t, int_fast64_t)`. -/
def add_int_to_column (s : State) : Res := some (false, s)

end ModifiedRowParser

namespace ModifiedRowParser

/-! ### Handlers that just mark the row as modified -/

/-- Embedding of `insert_int(size_t, row_ndx, size_t, int_fast64_t)`. -/
def insert_int (s : State) (row_ndx : Nat) : Res := mark_dirty s row_ndx
/-- Embedding of `insert_bool(size_t, row_ndx, size_t, bool)`. -/
def insert_bool (s : State) (row_ndx : Nat) : Res := mark_dirty s row_ndx
/-- Embedding of `insert_float(size_t, row_ndx, size_t, float)`. -/
def insert_float (s : State) (row_ndx : Nat) : Res := mark_dirty s row_ndx
/-- Embedding of `insert_double(size_t, row_ndx, size_t, double)`. -/
def insert_double (s : State) (row_ndx : Nat) : Res := mark_dirty s row_ndx
/-- Embedding of `insert_string(size_t, row_ndx, size_t, StringData)`. -/
def insert_string (s : State) (row_ndx : Nat) : Res := mark_dirty s row_ndx
/-- Embedding of `insert_binary(size_t, row_ndx, size_t, BinaryData)`. -/
def insert_binary (s : State) (row_ndx : Nat) : Res := mark_dirty s row_ndx
/-- Embedding of `insert_date_time(size_t, row_ndx, size_t, DateTime)`. -/
def insert_date_time (s : State) (row_ndx : Nat) : Res := mark_dirty s row_ndx
/-- Embedding of `insert_table(size_t, row_ndx, size_t)`. -/
def insert_table (s : State) (row_ndx : Nat) : Res := mark_dirty s row_ndx
/-- Embedding of `insert_mixed(size_t, row_ndx, size_t, const Mixed&)`. -/
def insert_mixed (s : State) (row_ndx : Nat) : Res := mark_dirty s row_ndx
/-- Embedding of `insert_link(size_t, row_ndx, size_t, size_t)`. -/
def insert_link (s : State) (row_ndx : Nat) : Res := mark_dirty s row_ndx
/-- Embedding of `insert_link_list(size_t, row_ndx, size_t)`. -/
def insert_link_list (s : State) (row_ndx : Nat) : Res := mark_dirty s row_ndx

/-- Embedding of `set_int(size_t, row_ndx, int_fast64_t)`. -/
def set_int (s : State) (row_ndx : Nat) : Res := mark_dirty s row_ndx
/-- Embedding of `set_bool(size_t, row_ndx, bool)`. -/
def set_bool (s : State) (row_ndx : Nat) : Res := mark_dirty s row_ndx
/-- Embedding of `set_float(size_t, row_ndx, float)`. -/
def set_float (s : State) (row_ndx : Nat) : Res := mark_dirty s row_ndx
/-- Embedding of `set_double(size_t, row_ndx, double)`. -/
def set_double (s : State) (row_ndx : Nat) : Res := mark_dirty s row_ndx
/-- Embedding of `set_string(size_t, row_ndx, StringData)`. -/
def set_string (s : State) (row_ndx : Nat) : Res := mark_dirty s row_ndx
/-- Embedding of `set_binary(size_t, row_ndx, BinaryData)`. -/
def set_binary (s : State) (row_ndx : Nat) : Res := mark_dirty s row_ndx
/-- Embedding of `set_date_time(size_t, row_ndx, DateTime)`. -/
def set_date_time (s : State) (row_ndx : Nat) : Res := mark_dirty s row_ndx
/-- Embedding of `select_link_list(size_t, row_ndx)`. -/
def select_link_list (s : State) (row_ndx : Nat) : Res := mark_dirty s row_ndx
/-- Embedding of `set_table(size_t, row_ndx)`. -/
def set_table (s : State) (row_ndx : Nat) : Res := mark_dirty s row_ndx
/-- Embedding of `set_mixed(size_t, row_ndx, const Mixed&)`. -/
def set_mixed (s : State) (row_ndx : Nat) : Res := mark_dirty s row_ndx
/-- Embedding of `set_link(size_t, row_ndx, size_t)`. -/
def set_link (s : State) (row_ndx : Nat) : Res := mark_dirty s row_ndx

/-! ### Handlers with nothing to do -/

/-- Embedding of `row_insert_complete()`. -/
def row_insert_complete (s : State) : Res := some (true, s)
/-- Embedding of `optimize_table()`. -/
def optimize_table (s : State) : Res := some (true, s)
/-- Embedding of `select_descriptor(int, const size_t*)`. -/
def select_descriptor (s : State) : Res := some (true, s)
/-- Embedding of `insert_column(size_t, DataType, StringData)`. -/
def insert_column (s : State) : Res := some (true, s)
/-- Embedding of `insert_link_column(size_t, DataType, StringData, size_t, size_t)`. -/
def insert_link_column (s : State) : Res := some (true, s)
/-- Embedding of `erase_column(size_t)`. -/
def erase_column (s : State) : Res := some (true, s)
/-- Embedding of `erase_link_column(size_t, size_t, size_t)`. -/
def erase_link_column (s : State) : Res := some (true, s)
/-- Embedding of `rename_column(size_t, StringData)`. -/
def rename_column (s : State) : Res := some (true, s)
/-- Embedding of `add_search_index(size_t)`. -/
def add_search_index (s : State) : Res := some (true, s)
/-- Embedding of `remove_search_index(size_t)`. -/
def remove_search_index (s : State) : Res := some (true, s)
/-- Embedding of `add_primary_key(size_t)`. -/
def add_primary_key (s : State) : Res := some (true, s)
/-- Embedding of `remove_primary_key()`. -/
def remove_primary_key (s : State) : Res := some (true, s)
/-- Embedding of `set_link_type(size_t, LinkType)`. -/
def set_link_type (s : State) : Res := some (true, s)
/-- Embedding of `link_list_set(size_t, size_t)`. -/
def link_list_set (s : State) : Res := some (true, s)
/-- Embedding of `link_list_insert(size_t, size_t)`. -/
def link_list_insert (s : State) : Res := some (true, s)
/-- Embedding of `link_list_move(size_t, size_t)`. -/
def link_list_move (s : State) : Res := some (true, s)
/-- Embedding of `link_list_erase(size_t)`. -/
def link_list_erase (s : State) : Res := some (true, s)
/-- Embedding of `link_list_clear()`. -/
def link_list_clear (s : State) : Res := some (true, s)

/-- One instruction of a transaction log: a handler of `ModifiedRowParser` together with the
arguments the handler reads. -/
inductive Instr where
  | insert_group_level_table (table_ndx num_tables : Nat)
  | erase_group_level_table (table_ndx num_tables : Nat)
  | rename_group_level_table
  | select_table (group_level_ndx : Nat)
  | insert_empty_rows (row_ndx num_rows last_row_ndx : Nat) (unordered : Bool)
  | erase_rows (row_ndx num_rows last_row_ndx : Nat) (unordered : Bool)
  | clear_table
  | add_int_to_column
  | insert_int (row_ndx : Nat)
  | insert_bool (row_ndx : Nat)
  | insert_float (row_ndx : Nat)
  | insert_double (row_ndx : Nat)
  | insert_string (row_ndx : Nat)
  | insert_binary (row_ndx : Nat)
  | insert_date_time (row_ndx : Nat)
  | insert_table (row_ndx : Nat)
  | insert_mixed (row_ndx : Nat)
  | insert_link (row_ndx : Nat)
  | insert_link_list (row_ndx : Nat)
  | set_int (row_ndx : Nat)
  | set_bool (row_ndx : Nat)
  | set_float (row_ndx : Nat)
  | set_double (row_ndx : Nat)
  | set_string (row_ndx : Nat)
  | set_binary (row_ndx : Nat)
  | set_date_time (row_ndx : Nat)
  | select_link_list (row_ndx : Nat)
  | set_table (row_ndx : Nat)
  | set_mixed (row_ndx : Nat)
  | set_link (row_ndx : Nat)
  | row_insert_complete
  | optimize_table
  | select_descriptor
  | insert_column
  | insert_link_column
  | erase_column
  | erase_link_column
  | rename_column
  | add_search_index
  | remove_search_index
  | add_primary_key
  | remove_primary_key
  | set_link_type
  | link_list_set
  | link_list_insert
  | link_list_move
  | link_list_erase
  | link_list_clear
deriving DecidableEq, Repr

/-- Call of the handler an instruction names. -/
def Instr.run (s : State) : Instr → Res
  | .insert_group_level_table t n => ModifiedRowParser.insert_group_level_table s t n
  | .erase_group_level_table t n => ModifiedRowParser.erase_group_level_table s t n
  | .rename_group_level_table => ModifiedRowParser.rename_group_level_table s
  | .select_table t => ModifiedRowParser.select_table s t
  | .insert_empty_rows r n l u => ModifiedRowParser.insert_empty_rows s r n l u
  | .erase_rows r n l u => ModifiedRowParser.erase_rows s r n l u
  | .clear_table => ModifiedRowParser.clear_table s
  | .add_int_to_column => ModifiedRowParser.add_int_to_column s
  | .insert_int r => ModifiedRowParser.insert_int s r
  | .insert_bool r => ModifiedRowParser.insert_bool s r
  | .insert_float r => ModifiedRowParser.insert_float s r
  | .insert_double r => ModifiedRowParser.insert_double s r
  | .insert_string r => ModifiedRowParser.insert_string s r
  | .insert_binary r => ModifiedRowParser.insert_binary s r
  | .insert_date_time r => ModifiedRowParser.insert_date_time s r
  | .insert_table r => ModifiedRowParser.insert_table s r
  | .insert_mixed r => ModifiedRowParser.insert_mixed s r
  | .insert_link r => ModifiedRowParser.insert_link s r
  | .insert_link_list r => ModifiedRowParser.insert_link_list s r
  | .set_int r => ModifiedRowParser.set_int s r
  | .set_bool r => ModifiedRowParser.set_bool s r
  | .set_float r => ModifiedRowParser.set_float s r
  | .set_double r => ModifiedRowParser.set_double s r
  | .set_string r => ModifiedRowParser.set_string s r
  | .set_binary r => ModifiedRowParser.set_binary s r
  | .set_date_time r => ModifiedRowParser.set_date_time s r
  | .select_link_list r => ModifiedRowParser.select_link_list s r
  | .set_table r => ModifiedRowParser.set_table s r
  | .set_mixed r => ModifiedRowParser.set_mixed s r
  | .set_link r => ModifiedRowParser.set_link s r
  | .row_insert_complete => ModifiedRowParser.row_insert_complete s
  | .optimize_table => ModifiedRowParser.optimize_table s
  | .select_descriptor => ModifiedRowParser.select_descriptor s
  | .insert_column => ModifiedRowParser.insert_column s
  | .insert_link_column => ModifiedRowParser.insert_link_column s
  | .erase_column => ModifiedRowParser.erase_column s
  | .erase_link_column => ModifiedRowParser.erase_link_column s
  | .rename_column => ModifiedRowParser.rename_column s
  | .add_search_index => ModifiedRowParser.add_search_index s
  | .remove_search_index => ModifiedRowParser.remove_search_index s
  | .add_primary_key => ModifiedRowParser.add_primary_key s
  | .remove_primary_key => ModifiedRowParser.remove_primary_key s
  | .set_link_type => ModifiedRowParser.set_link_type s
  | .link_list_set => ModifiedRowParser.link_list_set s
  | .link_list_insert => ModifiedRowParser.link_list_insert s
  | .link_list_move => ModifiedRowParser.link_list_move s
  | .link_list_erase => ModifiedRowParser.link_list_erase s
  | .link_list_clear => ModifiedRowParser.link_list_clear s

/-- Modelled from the spec: the log dispatcher (the transaction-log reader behind
`LangBindHelper::advance_read`, which is not part of this file). It replays the instruction
stream exactly once, strictly in order, and always runs to completion: each instruction is
routed to its handler and the next one is replayed on the state the handler leaves. The
result is `true` with the final state, or `none` when a handler call has no result. -/
def replay : List Instr → State → Res
  | [], s => some (true, s)
  | i :: rest, s =>
    match i.run s with
    | none => none
    | some (_, s1) => replay rest s1

end ModifiedRowParser

/-- A caller-held row handle: `r->get_table()->get_index_in_group()` and `r->get_index()`. -/
structure RowHandle where
  table_index : Nat
  row_index : Nat
deriving DecidableEq, Repr

/-- The row loop of `nativeAdvanceRead` over the handles still to visit, with the counter `i`
and the positions `mi` collected so far. A handle whose table index is not below
`modified.size()` takes the `continue`, which leaves `i` as it is. -/
def nativeAdvanceRead_rows (modified : List (List Nat)) : List RowHandle → Nat → List Nat → List Nat
  | [], _, mi => mi
  | r :: rest, i, mi =>
    if r.table_index ≥ modified.length then
      nativeAdvanceRead_rows modified rest i mi
    else if r.row_index ∈ modified.getD r.table_index [] then
      nativeAdvanceRead_rows modified rest (i + 1) (mi ++ [i])
    else
      nativeAdvanceRead_rows modified rest (i + 1) mi

/-- The row query of `nativeAdvanceRead`: `mi` starts empty and `i` at zero. -/
def queryDirtyRows (modified : List (List Nat)) (observedRows : List RowHandle) : List Nat :=
  nativeAdvanceRead_rows modified observedRows 0 []

/-- Conversion of an `int` to `size_t`, as the comparison `t > modified.size()` and the
subscript `modified[t]` perform it. -/
def int_to_size_t (t : Int) : Nat := (t % (2 ^ 64 : Int)).toNat

/-- The table loop of `nativeAdvanceRead`: `if (t > modified.size() || modified[t].size() == 0)
t = -1;` for each entry in turn. The subscript is evaluated only when the comparison is false,
and has no result when `t` is not an index of `modified`. -/
def nativeAdvanceRead_tables (modified : List (List Nat)) : List Int → Option (List Int)
  | [] => some []
  | t :: rest =>
    if int_to_size_t t > modified.length then
      (nativeAdvanceRead_tables modified rest).map (fun out => (-1) :: out)
    else
      match modified[int_to_size_t t]? with
      | none => none
      | some rows =>
        if rows.length = 0 then
          (nativeAdvanceRead_tables modified rest).map (fun out => (-1) :: out)
        else
          (nativeAdvanceRead_tables modified rest).map (fun out => t :: out)

/-! ### Notions used to state the properties -/

namespace ModifiedRowParser

/-- The call `mark_dirty(row_ndx)` made `n` times in a row. -/
def mark_dirty_times (row_ndx : Nat) : Nat → State → Option State
  | 0, s => some s
  | n + 1, s =>
    match mark_dirty s row_ndx with
    | none => none
    | some (_, s1) => mark_dirty_times row_ndx n s1

/-- What one iteration of the ordered loop of `erase_rows` stores for the element `row`:
nothing when `row >= row_ndx && row < row_ndx - num_rows`, else `row - num_rows` when
`row >= row_ndx`, else `row`. -/
def erase_ordered_keep (row_ndx num_rows row : Nat) : Option Nat :=
  if row ≥ row_ndx ∧ row < wsub row_ndx num_rows then none
  else if row ≥ row_ndx then some (wsub row num_rows)
  else some row

/-- Mapping `m1` extends mapping `m`: same number of tables, and the dirty sequence of every
table in `m` is a prefix of its sequence in `m1`. -/
def PrefixExt (m m1 : List (List Nat)) : Prop :=
  m1.length = m.length ∧
    ∀ (j : Nat) (rows : List Nat), m[j]? = some rows → ∃ rows1, m1[j]? = some rows1 ∧ rows <+: rows1

/-- The row a mark-dirty instruction names (`none` for every other instruction). -/
def Instr.marked_row : Instr → Option Nat
  | .insert_int r | .insert_bool r | .insert_float r | .insert_double r | .insert_string r
  | .insert_binary r | .insert_date_time r | .insert_table r | .insert_mixed r
  | .insert_link r | .insert_link_list r
  | .set_int r | .set_bool r | .set_float r | .set_double r | .set_string r | .set_binary r
  | .set_date_time r | .select_link_list r | .set_table r | .set_mixed r | .set_link r => some r
  | _ => none

/-- A group as a list of table row counts, with the table the log has selected. -/
structure GroupModel where
  row_counts : List Nat
  selected : Nat
deriving DecidableEq, Repr

/-- Effect of one structural instruction on the group, `none` when its table or row indices do
not fit the group at that point. The `last_row_ndx` argument is not inspected. -/
def GroupModel.step (g : GroupModel) : Instr → Option GroupModel
  | .select_table i =>
    if i < g.row_counts.length then some { g with selected := i } else none
  | .insert_group_level_table t n =>
    if t ≤ g.row_counts.length then
      some { g with row_counts := g.row_counts.take t ++ List.replicate n 0 ++ g.row_counts.drop t }
    else none
  | .erase_group_level_table t n =>
    if t + n ≤ g.row_counts.length then
      some { g with row_counts := g.row_counts.take t ++ g.row_counts.drop (t + n) }
    else none
  | .insert_empty_rows r n _ _ =>
    match g.row_counts[g.selected]? with
    | none => none
    | some c =>
      if r ≤ c then some { g with row_counts := g.row_counts.set g.selected (c + n) } else none
  | .erase_rows r n _ _ =>
    match g.row_counts[g.selected]? with
    | none => none
    | some c =>
      if r + n ≤ c then some { g with row_counts := g.row_counts.set g.selected (c - n) } else none
  | _ => none

/-- The group after a log, `none` when some instruction does not fit. -/
def GroupModel.run : List Instr → GroupModel → Option GroupModel
  | [], g => some g
  | i :: rest, g =>
    match g.step i with
    | none => none
    | some g1 => GroupModel.run rest g1

end ModifiedRowParser

/-! ## Theorems -/

namespace ModifiedRowParser

theorem wadd_eq_of_lt {a b : Nat} (h : a + b < 2 ^ 64) : wadd a b = a + b := by
  unfold wadd SIZE_MOD
  exact Nat.mod_eq_of_lt h

theorem push_new_rows_eq (row_ndx : Nat) (cnt i : Nat) (rows : List Nat) :
    push_new_rows row_ndx cnt i rows
      = rows ++ (List.range' i cnt).map (fun j => wadd j row_ndx) := by
  induction cnt generalizing i rows with
  | zero => simp [push_new_rows]
  | succ n ih => simp [push_new_rows, ih, List.range'_succ]

theorem push_new_rows_no_overflow (row_ndx num_rows : Nat) (rows : List Nat)
    (h : row_ndx + num_rows ≤ 2 ^ 64) :
    push_new_rows row_ndx num_rows 0 rows
      = rows ++ (List.range num_rows).map (fun i => row_ndx + i) := by
  rw [push_new_rows_eq, List.range_eq_range']
  congr 1
  apply List.map_congr_left
  intro j hj
  have hlt : j < num_rows := by simpa using hj
  rw [wadd_eq_of_lt (by omega)]
  omega

theorem shift_up_no_overflow (row_ndx num_rows : Nat) (rows : List Nat)
    (h : ∀ r ∈ rows, row_ndx ≤ r → r + num_rows < 2 ^ 64) :
    shift_up row_ndx num_rows rows
      = rows.map (fun r => if r ≥ row_ndx then r + num_rows else r) := by
  unfold shift_up
  apply List.map_congr_left
  intro r hr
  by_cases hge : r ≥ row_ndx
  · simp [hge, wadd_eq_of_lt (h r hr hge)]
  · simp [hge]

theorem set_getD_self (rows : List Nat) (p : Nat) : rows.set p (rows.getD p 0) = rows := by
  induction rows generalizing p with
  | nil => rfl
  | cons x xs ih =>
    cases p with
    | zero => rfl
    | succ q => simpa using ih q

/-- The compaction loop of the unordered `erase_rows` starts with `out = 0` at position 0 and
advances both in every iteration, so each write stores an element where it already is. -/
theorem erase_unordered_loop_eq (num_rows last_row_ndx cnt p : Nat) (rows : List Nat) :
    erase_unordered_loop num_rows last_row_ndx cnt p p rows = (rows, p + cnt) := by
  induction cnt generalizing p with
  | zero => rfl
  | succ n ih =>
    unfold erase_unordered_loop
    simp only [set_getD_self, ite_self]
    rw [ih (p + 1)]
    congr 1
    omega

theorem set_of_getElem? {α : Type} (l : List α) (i : Nat) (a : α) (h : l[i]? = some a) :
    l.set i a = l := by
  induction l generalizing i with
  | nil => rfl
  | cons x xs ih =>
    cases i with
    | zero =>
      simp only [List.getElem?_cons_zero, Option.some.injEq] at h
      simp [h]
    | succ j =>
      simp only [List.getElem?_cons_succ] at h
      simp [ih j h]

/-- The unordered `erase_rows` on a selected table inside the mapping is the `mark_dirty` loop
alone: the compaction pass before it leaves the state as it is. -/
theorem erase_rows_unordered_eq (s : State) (rows : List Nat)
    (row_ndx num_rows last_row_ndx : Nat) (h : s.modified[s.current_table]? = some rows) :
    erase_rows s row_ndx num_rows last_row_ndx true
      = (mark_dirty_loop row_ndx num_rows 0 s).map (fun s1 => (true, s1)) := by
  unfold erase_rows
  rw [h]
  simp only [if_true, erase_unordered_loop_eq, set_of_getElem? _ _ _ h]
  cases mark_dirty_loop row_ndx num_rows 0 s <;> rfl

theorem moveAssign_length (v : List (List Nat)) (dst src : Nat) :
    (moveAssign v dst src).length = v.length := by
  simp [moveAssign]

theorem moveRange_length (cnt first d_first : Nat) (v : List (List Nat)) :
    (moveRange cnt first d_first v).length = v.length := by
  induction cnt generalizing first d_first v with
  | zero => rfl
  | succ n ih => simp [moveRange, ih, moveAssign_length]

theorem moveAssign_getElem? (v : List (List Nat)) (dst src j : Nat)
    (hne : dst ≠ src) (hsrc : src < v.length) (hdst : dst < v.length) :
    (moveAssign v dst src)[j]?
      = if j = src then some [] else if j = dst then v[src]? else v[j]? := by
  unfold moveAssign
  rw [List.getElem?_set, List.getElem?_set]
  by_cases h1 : j = src
  · subst h1
    simp [hsrc]
  · by_cases h2 : j = dst
    · subst h2
      simp [h1, Ne.symm h1, hdst, List.getD_eq_getElem?_getD, List.getElem?_eq_getElem hsrc]
    · simp [h1, h2, Ne.symm h1, Ne.symm h2]

/-- A front-to-back move towards lower positions (`d_first < first`) delivers every source
element: entries below `d` are kept and entry `i` of the destination range holds the old
entry `i + g`. -/
theorem moveRange_down (g : Nat) (hg : 0 < g) (cnt d : Nat) (v : List (List Nat))
    (hlen : d + g + cnt ≤ v.length) :
    (∀ i, i < d → (moveRange cnt (d + g) d v)[i]? = v[i]?)
      ∧ (∀ i, d ≤ i → i < d + cnt → (moveRange cnt (d + g) d v)[i]? = v[i + g]?) := by
  induction cnt generalizing d v with
  | zero =>
    refine ⟨fun i _ => rfl, fun i h1 h2 => ?_⟩
    omega
  | succ n ih =>
    have hstep : moveRange (n + 1) (d + g) d v
        = moveRange n (d + 1 + g) (d + 1) (moveAssign v d (d + g)) := by
      have : d + g + 1 = d + 1 + g := by omega
      simp [moveRange, this]
    have hlen1 : d + 1 + g + n ≤ (moveAssign v d (d + g)).length := by
      rw [moveAssign_length]; omega
    obtain ⟨ih1, ih2⟩ := ih (d + 1) (moveAssign v d (d + g)) hlen1
    have hget : ∀ j, (moveAssign v d (d + g))[j]?
        = if j = d + g then some [] else if j = d then v[d + g]? else v[j]? :=
      fun j => moveAssign_getElem? v d (d + g) j (by omega) (by omega) (by omega)
    rw [hstep]
    constructor
    · intro i hi
      rw [ih1 i (by omega), hget]
      rw [if_neg (by omega), if_neg (by omega)]
    · intro i h1 h2
      by_cases hid : i = d
      · subst hid
        rw [ih1 i (by omega), hget]
        rw [if_neg (by omega), if_pos rfl]
      · rw [ih2 i (by omega) (by omega), hget]
        rw [if_neg (by omega), if_neg (by omega)]

/-- For at least one erased table and `table_ndx + num_tables` below `2 ^ 64`,
`erase_group_level_table` inside the mapping removes the entries
`table_ndx, ..., table_ndx + num_tables - 1` (as many of them as exist) and moves the later
entries down. -/
theorem erase_group_level_table_of_pos (s : State) (table_ndx num_tables : Nat)
    (hlt : table_ndx < s.modified.length) (hpos : 0 < num_tables)
    (hsum : table_ndx + num_tables < 2 ^ 64) :
    erase_group_level_table s table_ndx num_tables
      = some (true, { current_table := s.current_table,
                      modified := s.modified.take table_ndx
                        ++ s.modified.drop (table_ndx + num_tables) }) := by
  have hsum1 : table_ndx + num_tables < SIZE_MOD := hsum
  simp only [erase_group_level_table, hlt, hsum1, if_true]
  congr 3
  apply List.ext_getElem?
  intro i
  by_cases hfit : table_ndx + num_tables ≤ s.modified.length
  · obtain ⟨hlow, hhigh⟩ := moveRange_down num_tables hpos
      (s.modified.length - (table_ndx + num_tables)) table_ndx s.modified (by omega)
    have hmin : min (s.modified.length - table_ndx) num_tables = num_tables := by omega
    simp only [resize, moveRange_length, hmin]
    have hrep : s.modified.length - num_tables - s.modified.length = 0 := by omega
    rw [hrep, List.replicate_zero, List.append_nil, List.getElem?_take]
    by_cases hi : i < s.modified.length - num_tables
    · rw [if_pos hi]
      by_cases hit : i < table_ndx
      · rw [hlow i hit, List.getElem?_append_left (by simp; omega), List.getElem?_take]
        simp [hit]
      · rw [hhigh i (by omega) (by omega),
          List.getElem?_append_right (by simp; omega), List.getElem?_drop]
        congr 1
        simp
        omega
    · rw [if_neg hi, List.getElem?_append_right (by simp; omega), List.getElem?_drop]
      symm
      apply List.getElem?_eq_none
      simp
      omega
  · have hcnt : s.modified.length - (table_ndx + num_tables) = 0 := by omega
    have hmin : min (s.modified.length - table_ndx) num_tables
        = s.modified.length - table_ndx := by omega
    have hdrop : s.modified.drop (table_ndx + num_tables) = [] := by
      apply List.drop_eq_nil_of_le
      omega
    simp only [hcnt, moveRange, resize, hmin, hdrop, List.append_nil]
    have hrep : s.modified.length - (s.modified.length - table_ndx) - s.modified.length = 0 := by
      omega
    have hn : s.modified.length - (s.modified.length - table_ndx) = table_ndx := by omega
    rw [hrep, hn, List.replicate_zero, List.append_nil]

end ModifiedRowParser

open ModifiedRowParser

/-- C1 (fails on the code): with table 0 selected and two tables in the mapping, `set_int` for
row 1 adds the row to the dirty sequence of table 1, the table whose index equals the row
index; row 1 is not a member of the selected table's sequence afterwards, and the sequence
of the other table has changed. -/
theorem C1_set_int_marks_table_of_row_index :
    set_int { current_table := 0, modified := [[], []] } 1
        = some (true, { current_table := 0, modified := [[], [1]] })
      ∧ (1 : Nat) ∉ ([[], [1]] : List (List Nat)).getD 0 []
      ∧ ([[], [1]] : List (List Nat)).getD 1 [] ≠ ([[], []] : List (List Nat)).getD 1 [] := by
  refine ⟨by decide, by decide, by decide⟩

/-- C2 (fails on the code): from a fresh parser, select table 0, the ordered insert of one row
at 2 and select table 0 are defined and leave the mapping `[[2]]`; the following `set_int` for
row 2 indexes the one-entry mapping at 2 and has no defined result, and so has the replay of
the whole log. -/
theorem C2_end_to_end_replay_undefined (last_row_ndx : Nat) :
    select_table State.fresh 0 = some (true, { current_table := 0, modified := [[]] })
      ∧ insert_empty_rows { current_table := 0, modified := [[]] } 2 1 last_row_ndx false
          = some (true, { current_table := 0, modified := [[2]] })
      ∧ select_table { current_table := 0, modified := [[2]] } 0
          = some (true, { current_table := 0, modified := [[2]] })
      ∧ set_int { current_table := 0, modified := [[2]] } 2 = none
      ∧ replay [.select_table 0, .insert_empty_rows 2 1 last_row_ndx false, .select_table 0,
          .set_int 2] State.fresh = none := by
  refine ⟨rfl, rfl, rfl, rfl, rfl⟩

/-- C3 (fails on the code): ordered `erase_rows(2, 2, _, false)` on the dirty sequence
`[1, 2, 3, 4]` keeps all four entries and yields `[1, 0, 1, 2]`; dropping the erased span
`[2, 4)` and shifting the rest would yield `[1, 2]`. -/
theorem C3_erase_rows_ordered_keeps_span (last_row_ndx : Nat) :
    erase_rows { current_table := 0, modified := [[1, 2, 3, 4]] } 2 2 last_row_ndx false
      = some (true, { current_table := 0, modified := [[1, 0, 1, 2]] }) := by
  rfl

/-- C4 (fails on the code): from an empty dirty sequence of the selected table 0, the ordered
insert of one row at index 2 gives `[2]`, and the ordered erase of that row gives `[1]`, not
the empty sequence. -/
theorem C4_insert_erase_round_trip_leaves_entry (last_row_ndx : Nat) :
    insert_empty_rows { current_table := 0, modified := [[]] } 2 1 last_row_ndx false
        = some (true, { current_table := 0, modified := [[2]] })
      ∧ erase_rows { current_table := 0, modified := [[2]] } 2 1 last_row_ndx false
        = some (true, { current_table := 0, modified := [[1]] }) := by
  constructor <;> rfl

/-- C5: ordered `insert_empty_rows` without overflow. When the selected table is inside the
mapping with dirty sequence `rows`, the call returns `true`, keeps the selection and the
number of tables, replaces the selected table's sequence by `rows` with every entry
`r >= row_ndx` raised by `num_rows`, followed by `row_ndx, ..., row_ndx + num_rows - 1`, and
leaves the sequence of every other table as it was. -/
theorem C5_insert_empty_rows_ordered (s : State) (rows : List Nat)
    (row_ndx num_rows last_row_ndx : Nat)
    (hsel : s.modified[s.current_table]? = some rows)
    (hnew : row_ndx + num_rows ≤ 2 ^ 64)
    (hold : ∀ r ∈ rows, row_ndx ≤ r → r + num_rows < 2 ^ 64) :
    ∃ s1 : State,
      insert_empty_rows s row_ndx num_rows last_row_ndx false = some (true, s1)
      ∧ s1.current_table = s.current_table
      ∧ s1.modified.length = s.modified.length
      ∧ s1.modified[s.current_table]?
          = some (rows.map (fun r => if r ≥ row_ndx then r + num_rows else r)
              ++ (List.range num_rows).map (fun i => row_ndx + i))
      ∧ ∀ j : Nat, j ≠ s.current_table → s1.modified[j]? = s.modified[j]? := by
  have hlt : s.current_table < s.modified.length := by
    by_contra hge
    rw [List.getElem?_eq_none (by omega)] at hsel
    cases hsel
  refine ⟨{ current_table := s.current_table,
            modified := s.modified.set s.current_table
              (push_new_rows row_ndx num_rows 0 (shift_up row_ndx num_rows rows)) },
    ?_, rfl, ?_, ?_, ?_⟩
  · simp only [insert_empty_rows, hsel, Bool.false_eq_true, if_false]
  · simp
  · simp [hlt, push_new_rows_no_overflow _ _ _ hnew, shift_up_no_overflow _ _ _ hold]
  · intro j hj
    simp [List.getElem?_set, Ne.symm hj]

/-- Witness of C5 on the mapping `[[1, 5, 3]]`: two rows inserted at index 3. -/
theorem C5_insert_empty_rows_ordered_witness :
    ∃ s1 : State,
      insert_empty_rows { current_table := 0, modified := [[1, 5, 3]] } 3 2 0 false
          = some (true, s1)
      ∧ s1.current_table = 0
      ∧ s1.modified.length = 1
      ∧ s1.modified[0]? = some [1, 7, 5, 3, 4]
      ∧ ∀ j : Nat, j ≠ 0 → s1.modified[j]? = ([[1, 5, 3]] : List (List Nat))[j]? :=
  C5_insert_empty_rows_ordered { current_table := 0, modified := [[1, 5, 3]] } [1, 5, 3] 3 2 0
    rfl (by norm_num) (by decide)

/-- C6 (fails on the code): table 0 is selected with dirty rows `[1, 3]`; whatever
`last_row_ndx` is, the unordered erase of two rows at index 0 keeps both old entries, appends
0 to table 0 and puts row 1 into the sequence of table 1. With table 0 alone in the mapping
the call indexes the mapping at 1 and has no defined result. -/
theorem C6_erase_rows_unordered_on_witness (last_row_ndx : Nat) :
    erase_rows { current_table := 0, modified := [[1, 3], []] } 0 2 last_row_ndx true
        = some (true, { current_table := 0, modified := [[1, 3, 0], [1]] })
      ∧ erase_rows { current_table := 0, modified := [[1, 3]] } 0 2 last_row_ndx true = none := by
  constructor
  · rw [erase_rows_unordered_eq { current_table := 0, modified := [[1, 3], []] } [1, 3]
      0 2 last_row_ndx rfl]
    rfl
  · rw [erase_rows_unordered_eq { current_table := 0, modified := [[1, 3]] } [1, 3]
      0 2 last_row_ndx rfl]
    rfl

/-- C7 (fails on the code): with tables `[A, B, C]` and dirty row 7 recorded only in `B`,
`insert_group_level_table(0, 1)` leaves every one of the four entries empty: the rows of `B`
are overwritten by the front-to-back move instead of arriving at index 2. -/
theorem C7_insert_group_level_table_loses_rows :
    insert_group_level_table { current_table := 0, modified := [[], [7], []] } 0 1
      = some (true, { current_table := 0, modified := [[], [], [], []] }) := by
  rfl

/-- C8 (fails on the code): `erase_group_level_table(0, 0)` on a one-table mapping with dirty
row 5 moves entry 0 onto itself, which empties it: the mapping keeps its length but entry 0
is no longer the old entry 0. -/
theorem C8_erase_group_level_table_zero_tables :
    erase_group_level_table { current_table := 0, modified := [[5]] } 0 0
      = some (true, { current_table := 0, modified := [[]] }) := by
  rfl

/-- C9 (fails on the code): with dirty row 2 in table 0, the handles `(table 5, row 0)` and
`(table 0, row 2)` give the output `[0]`: the out-of-bounds handle is skipped without
counting it, so the dirty handle at input position 1 is reported as position 0. -/
theorem C9_row_query_skip_shifts_positions :
    queryDirtyRows [[2]] [{ table_index := 5, row_index := 0 }, { table_index := 0, row_index := 2 }]
      = [0] := by
  rfl

/-- C10 (fails on the code): on the witness input `[0, 5]` with dirty rows in the only table the
table query gives `[0, -1]`, but for the entry `1`, equal to the number of tables, the
comparison `t > modified.size()` is false and the subscript `modified[1]` is out of range:
the query has no defined result. -/
theorem C10_table_query_undefined_at_size :
    nativeAdvanceRead_tables [[1]] [0, 5] = some [0, -1]
      ∧ nativeAdvanceRead_tables [[1]] [1] = none := by
  constructor <;> decide

namespace ModifiedRowParser

/-- Inside the mapping, `mark_dirty(r)` returns `true` and rewrites entry `r` only. -/
theorem mark_dirty_of_lt (s : State) (r : Nat) (h : r < s.modified.length) :
    mark_dirty s r = some (true, State.mk s.current_table (s.modified.set r
      (if r ∈ s.modified.getD r [] then s.modified.getD r [] else s.modified.getD r [] ++ [r]))) := by
  have hget : s.modified[r]? = some (s.modified.getD r []) := by
    rw [List.getD_eq_getElem _ _ h, List.getElem?_eq_getElem h]
  unfold mark_dirty
  rw [hget]
  by_cases hmem : r ∈ s.modified.getD r []
  · simp only [hmem, if_true, set_of_getElem? _ _ _ hget]
  · simp only [hmem, if_false]

/-- Outside the mapping, `mark_dirty(r)` has no defined result. -/
theorem mark_dirty_of_ge (s : State) (r : Nat) (h : s.modified.length ≤ r) :
    mark_dirty s r = none := by
  unfold mark_dirty
  rw [List.getElem?_eq_none h]

/-- Every mark-dirty instruction is the call `mark_dirty(row_ndx)`. -/
theorem run_of_marked_row (s : State) (i : Instr) (r : Nat) (h : i.marked_row = some r) :
    i.run s = mark_dirty s r := by
  cases i <;> simp only [Instr.marked_row, Option.some.injEq] at h <;> first
    | (subst h; rfl)
    | exact absurd h (by simp)

/-- A row already recorded in entry `r` makes `mark_dirty(r)` return the state as it is. -/
theorem mark_dirty_of_mem (s : State) (r : Nat) (vec : List Nat)
    (hget : s.modified[r]? = some vec) (hmem : r ∈ vec) : mark_dirty s r = some (true, s) := by
  unfold mark_dirty
  rw [hget]
  simp only [hmem, if_true]

theorem mark_dirty_times_of_mem (s : State) (r n : Nat) (vec : List Nat)
    (hget : s.modified[r]? = some vec) (hmem : r ∈ vec) : mark_dirty_times r n s = some s := by
  induction n with
  | zero => rfl
  | succ k ih =>
    unfold mark_dirty_times
    rw [mark_dirty_of_mem s r vec hget hmem]
    exact ih

end ModifiedRowParser

/-- C11 (fails on the code): from a fresh parser, select table 0, the ordered insert of two
rows at index 0 and the ordered erase of the row at index 1 end with the dirty sequence
`[0, 0]` for table 0, in which row 0 occurs twice. -/
theorem C11_reachable_state_with_duplicate (l1 l2 : Nat) :
    replay [.select_table 0, .insert_empty_rows 0 2 l1 false, .erase_rows 1 1 l2 false]
        State.fresh = some (true, { current_table := 0, modified := [[0, 0]] })
      ∧ ¬ ([0, 0] : List Nat).Nodup := by
  refine ⟨rfl, by decide⟩

/-- C12 (fails on the code): the log creates two tables, selects table 1 and then table 0,
inserts one row at index 0 of table 0 and inserts a table at index 0. Every index fits the
group, whose row counts end as `[0, 1, 0]`; the replay ends with the mapping `[[], [], [0]]`,
which records row 0 for table 2, a table without rows. -/
theorem C12_stale_row_after_table_insert (last_row_ndx : Nat) :
    GroupModel.run [.insert_group_level_table 0 2, .select_table 1, .select_table 0,
        .insert_empty_rows 0 1 last_row_ndx false, .insert_group_level_table 0 1]
        { row_counts := [], selected := 0 }
        = some { row_counts := [0, 1, 0], selected := 0 }
      ∧ replay [.insert_group_level_table 0 2, .select_table 1, .select_table 0,
        .insert_empty_rows 0 1 last_row_ndx false, .insert_group_level_table 0 1] State.fresh
        = some (true, { current_table := 0, modified := [[], [], [0]] })
      ∧ ¬ (∀ r ∈ ([[], [], [0]] : List (List Nat)).getD 2 [], r < ([0, 1, 0] : List Nat).getD 2 0) := by
  refine ⟨rfl, rfl, by decide⟩

/-- C13: `mark_dirty` is idempotent. In a state whose dirty sequences are duplicate-free and
for a row `r` inside the mapping (where the call is defined), `n >= 1` calls of
`mark_dirty(r)` end in the same state as one call, and `r` occurs exactly once in entry `r`,
the sequence the call adds it to. -/
theorem C13_mark_dirty_idempotent (s : State) (r n : Nat)
    (hnodup : ∀ rows ∈ s.modified, rows.Nodup) (hdef : r < s.modified.length) (hn : 1 ≤ n) :
    ∃ s1 : State, mark_dirty s r = some (true, s1)
      ∧ mark_dirty_times r 1 s = some s1
      ∧ mark_dirty_times r n s = some s1
      ∧ ∃ rows1, s1.modified[r]? = some rows1 ∧ rows1.count r = 1 := by
  have hcall := mark_dirty_of_lt s r hdef
  have hvec : s.modified.getD r [] ∈ s.modified := by
    rw [List.getD_eq_getElem _ _ hdef]
    exact List.getElem_mem hdef
  have hnd := hnodup _ hvec
  obtain ⟨k, rfl⟩ : ∃ k, n = k + 1 := ⟨n - 1, by omega⟩
  generalize hrows : (if r ∈ s.modified.getD r [] then s.modified.getD r []
    else s.modified.getD r [] ++ [r]) = rows1 at hcall
  have hget1 : (s.modified.set r rows1)[r]? = some rows1 := by
    simp [hdef]
  have hmem1 : r ∈ rows1 := by
    rw [← hrows]
    by_cases hmem : r ∈ s.modified.getD r []
    · rw [if_pos hmem]
      exact hmem
    · rw [if_neg hmem]
      exact List.mem_append_right _ (List.mem_singleton_self r)
  have hcount : rows1.count r = 1 := by
    rw [← hrows]
    by_cases hmem : r ∈ s.modified.getD r []
    · simp only [hmem, if_true]
      exact List.count_eq_one_of_mem hnd hmem
    · simp only [hmem, if_false, List.count_append, List.count_eq_zero_of_not_mem hmem]
      simp
  refine ⟨_, hcall, ?_, ?_, rows1, hget1, hcount⟩
  · unfold mark_dirty_times
    rw [hcall]
    rfl
  · unfold mark_dirty_times
    rw [hcall]
    exact mark_dirty_times_of_mem _ r k rows1 hget1 hmem1

/-- Witness of C13: three calls of `mark_dirty(1)` on the mapping `[[4], [2]]`. -/
theorem C13_mark_dirty_idempotent_witness :
    ∃ s1 : State, mark_dirty { current_table := 0, modified := [[4], [2]] } 1 = some (true, s1)
      ∧ mark_dirty_times 1 1 { current_table := 0, modified := [[4], [2]] } = some s1
      ∧ mark_dirty_times 1 3 { current_table := 0, modified := [[4], [2]] } = some s1
      ∧ ∃ rows1, s1.modified[1]? = some rows1 ∧ rows1.count 1 = 1 :=
  C13_mark_dirty_idempotent { current_table := 0, modified := [[4], [2]] } 1 3
    (by decide) (by decide) (by decide)

namespace ModifiedRowParser

theorem mark_dirty_bool (s s1 : State) (r : Nat) (b : Bool)
    (h : mark_dirty s r = some (b, s1)) : b = true := by
  by_cases hr : r < s.modified.length
  · rw [mark_dirty_of_lt s r hr] at h
    simp only [Option.some.injEq, Prod.mk.injEq] at h
    exact h.1.symm
  · rw [mark_dirty_of_ge s r (by omega)] at h
    cases h

theorem insert_group_level_table_bool (s s1 : State) (t n : Nat) (b : Bool)
    (h : insert_group_level_table s t n = some (b, s1)) : b = true := by
  unfold insert_group_level_table at h
  split at h
  · split at h
    · simp only [Option.some.injEq, Prod.mk.injEq] at h
      exact h.1.symm
    · cases h
  · simp only [Option.some.injEq, Prod.mk.injEq] at h
    exact h.1.symm

theorem erase_group_level_table_bool (s s1 : State) (t n : Nat) (b : Bool)
    (h : erase_group_level_table s t n = some (b, s1)) : b = true := by
  unfold erase_group_level_table at h
  split at h
  · split at h
    · simp only [Option.some.injEq, Prod.mk.injEq] at h
      exact h.1.symm
    · cases h
  · simp only [Option.some.injEq, Prod.mk.injEq] at h
    exact h.1.symm

theorem select_table_bool (s s1 : State) (t : Nat) (b : Bool)
    (h : select_table s t = some (b, s1)) : b = true := by
  unfold select_table at h
  split at h
  · split at h
    · simp only [Option.some.injEq, Prod.mk.injEq] at h
      exact h.1.symm
    · cases h
  · simp only [Option.some.injEq, Prod.mk.injEq] at h
    exact h.1.symm

theorem insert_empty_rows_bool (s s1 : State) (r n l : Nat) (u b : Bool)
    (h : insert_empty_rows s r n l u = some (b, s1)) : b = true := by
  unfold insert_empty_rows at h
  split at h
  · split at h
    · cases h
    · simp only [Option.some.injEq, Prod.mk.injEq] at h
      exact h.1.symm
  · split at h
    · cases h
    · simp only [Option.some.injEq, Prod.mk.injEq] at h
      exact h.1.symm

theorem erase_rows_bool (s s1 : State) (r n l : Nat) (u b : Bool)
    (h : erase_rows s r n l u = some (b, s1)) : b = true := by
  unfold erase_rows at h
  split at h
  · cases h
  · split at h
    · dsimp only at h
      split at h
      · cases h
      · simp only [Option.some.injEq, Prod.mk.injEq] at h
        exact h.1.symm
    · simp only [Option.some.injEq, Prod.mk.injEq] at h
      exact h.1.symm

theorem clear_table_bool (s s1 : State) (b : Bool)
    (h : clear_table s = some (b, s1)) : b = true := by
  unfold clear_table at h
  split at h
  · cases h
  · simp only [Option.some.injEq, Prod.mk.injEq] at h
    exact h.1.symm

/-- The `bool` a handler returns, where the call is defined: `false` for `add_int_to_column`
and `true` for every other instruction. -/
theorem run_bool (i : Instr) (s s1 : State) (b : Bool) (h : i.run s = some (b, s1)) :
    b = true ↔ i ≠ Instr.add_int_to_column := by
  by_cases hadd : i = Instr.add_int_to_column
  · subst hadd
    simp only [Instr.run, add_int_to_column, Option.some.injEq, Prod.mk.injEq] at h
    simp [← h.1]
  · simp only [ne_eq, hadd, not_false_eq_true, iff_true]
    cases hm : i.marked_row with
    | some r =>
      rw [run_of_marked_row s i r hm] at h
      exact mark_dirty_bool s s1 r b h
    | none =>
      cases i <;> first
        | exact absurd rfl hadd
        | (simp [Instr.marked_row] at hm; done)
        | exact insert_group_level_table_bool _ _ _ _ _ h
        | exact erase_group_level_table_bool _ _ _ _ _ h
        | exact select_table_bool _ _ _ _ h
        | exact insert_empty_rows_bool _ _ _ _ _ _ _ h
        | exact erase_rows_bool _ _ _ _ _ _ _ h
        | exact clear_table_bool _ _ _ h
        | (simp only [Instr.run, rename_group_level_table, row_insert_complete, optimize_table,
            select_descriptor, insert_column, insert_link_column, erase_column,
            erase_link_column, rename_column, add_search_index, remove_search_index,
            add_primary_key, remove_primary_key, set_link_type, link_list_set,
            link_list_insert, link_list_move, link_list_erase, link_list_clear,
            Option.some.injEq, Prod.mk.injEq] at h
           exact h.1.symm)

/-- The handler `add_int_to_column` is defined on every state, returns `false` and leaves the
state as it is. -/
theorem run_add_int_to_column (s : State) :
    Instr.add_int_to_column.run s = some (false, s) := rfl

end ModifiedRowParser

/-- C14, counterexample: `add_int_to_column` is defined on the mapping `[[5]]` and returns
`false`, so this handler does not report success. -/
theorem C14_add_int_to_column_rejected :
    add_int_to_column { current_table := 0, modified := [[5]] }
        = some (false, { current_table := 0, modified := [[5]] })
      ∧ Instr.run { current_table := 0, modified := [[5]] } Instr.add_int_to_column
        = some (false, { current_table := 0, modified := [[5]] }) := by
  constructor <;> rfl

/-- C14, amended: wherever a handler is defined it returns `true`, except `add_int_to_column`,
which is defined on every state, returns `false` and leaves the state unchanged. So a handler
call for an instruction of a log that holds no `add_int_to_column` never reports a failure. -/
theorem C14_handlers_accept_except_add_int_to_column (i : Instr) (log : List Instr)
    (s s1 : State) (b : Bool) (hmem : i ∈ log) (hrun : i.run s = some (b, s1)) :
    (b = true ↔ i ≠ Instr.add_int_to_column)
      ∧ (i = Instr.add_int_to_column → b = false ∧ s1 = s)
      ∧ Instr.add_int_to_column.run s = some (false, s)
      ∧ (Instr.add_int_to_column ∉ log → b = true) := by
  have hb := run_bool i s s1 b hrun
  refine ⟨hb, ?_, run_add_int_to_column s, ?_⟩
  · intro hi
    subst hi
    rw [run_add_int_to_column s] at hrun
    simp only [Option.some.injEq, Prod.mk.injEq] at hrun
    exact ⟨hrun.1.symm, hrun.2.symm⟩
  · intro hno
    apply hb.mpr
    intro hi
    subst hi
    exact hno hmem

/-- Witness of C14 (amended): `set_int` for row 0 in the log `[select_table 0, set_int 0]`,
called on the mapping `[[5]]` with table 0 selected. -/
theorem C14_handlers_accept_except_add_int_to_column_witness :
    (true = true ↔ Instr.set_int 0 ≠ Instr.add_int_to_column)
      ∧ (Instr.set_int 0 = Instr.add_int_to_column →
          true = false ∧ ({ current_table := 0, modified := [[5, 0]] } : State)
            = { current_table := 0, modified := [[5]] })
      ∧ Instr.add_int_to_column.run { current_table := 0, modified := [[5]] }
          = some (false, { current_table := 0, modified := [[5]] })
      ∧ (Instr.add_int_to_column ∉ [Instr.select_table 0, Instr.set_int 0] → true = true) :=
  C14_handlers_accept_except_add_int_to_column (Instr.set_int 0)
    [Instr.select_table 0, Instr.set_int 0]
    { current_table := 0, modified := [[5]] } { current_table := 0, modified := [[5, 0]] } true
    (by decide) rfl

namespace ModifiedRowParser

theorem resize_length {α : Type} (dflt : α) (v : List α) (n : Nat) :
    (resize dflt v n).length = n := by
  simp only [resize, List.length_append, List.length_take, List.length_replicate]
  omega

theorem resize_getElem? {α : Type} (dflt : α) (v : List α) (n j : Nat) :
    (resize dflt v n)[j]? = if j < n then some (v.getD j dflt) else none := by
  unfold resize
  by_cases hj : j < n
  · rw [if_pos hj]
    by_cases hv : j < v.length
    · rw [List.getElem?_append_left (by simp only [List.length_take]; omega),
        List.getElem?_take, if_pos hj, List.getD_eq_getElem _ _ hv, List.getElem?_eq_getElem hv]
    · rw [List.getElem?_append_right (by simp only [List.length_take]; omega),
        List.getElem?_replicate, if_pos (by simp only [List.length_take]; omega),
        List.getD_eq_default _ _ (by omega)]
  · rw [if_neg hj]
    apply List.getElem?_eq_none
    simp only [List.length_append, List.length_take, List.length_replicate]
    omega

end ModifiedRowParser

/-- C15, counterexample: on the mapping `[[3]]`, `select_table(2^64 - 1)` computes
`current_table + 1 = 0` and resizes the mapping to no entries, so the dirty row of table 0 is
gone and the selection is outside the mapping; and `select_table(2^62)` asks `resize` for
more than `max_size` entries, so the call yields no mapping at all. -/
theorem C15_select_table_wraps_at_max :
    select_table { current_table := 0, modified := [[3]] } 18446744073709551615
        = some (true, { current_table := 18446744073709551615, modified := [] })
      ∧ select_table { current_table := 0, modified := [[3]] } 4611686018427387904 = none := by
  constructor <;> rfl

/-- C15, amended: for every index `i` below `2^64 - 1`, whenever `select_table(i)` returns it
returns `true`, has selected `i`, and yields a mapping of length `max (length m) (i + 1)`
whose first `length m` entries are those of `m` and whose added entries are empty, so that
the selected index is inside the mapping. The call returns whenever `i + 1` is at most
`max_size`, the largest size `resize` accepts; for an index outside the mapping with
`i + 1` above `max_size` it does not return. -/
theorem C15_select_table_grows (s : State) (i : Nat) (hi : i + 1 < 2 ^ 64) :
    (∀ (b : Bool) (s1 : State), select_table s i = some (b, s1) →
        b = true
          ∧ s1.current_table = i
          ∧ s1.modified.length = max s.modified.length (i + 1)
          ∧ (∀ j, j < s.modified.length → s1.modified[j]? = s.modified[j]?)
          ∧ (∀ j, s.modified.length ≤ j → j < s1.modified.length → s1.modified[j]? = some [])
          ∧ i < s1.modified.length)
      ∧ (i + 1 ≤ max_size → ∃ s1 : State, select_table s i = some (true, s1))
      ∧ (s.modified.length ≤ i → max_size < i + 1 → select_table s i = none) := by
  have hw : wadd i 1 = i + 1 := wadd_eq_of_lt hi
  refine ⟨?_, ?_, ?_⟩
  · intro b s1 hdef
    by_cases hge : i ≥ s.modified.length
    · by_cases hfit : i + 1 ≤ max_size
      · simp only [select_table, hge, if_true, hw, hfit, Option.some.injEq,
          Prod.mk.injEq] at hdef
        obtain ⟨hb, rfl⟩ := hdef
        refine ⟨hb.symm, rfl, ?_, ?_, ?_, ?_⟩
        · simp only [resize_length]
          omega
        · intro j hj
          simp only [resize_getElem?]
          rw [if_pos (by omega), List.getD_eq_getElem _ _ hj, List.getElem?_eq_getElem hj]
        · intro j hj1 hj2
          simp only [resize_length] at hj2
          simp only [resize_getElem?]
          rw [if_pos hj2, List.getD_eq_default _ _ hj1]
        · simp only [resize_length]
          omega
      · simp only [select_table, hge, if_true, hw, hfit, if_false] at hdef
        cases hdef
    · simp only [select_table, hge, if_false, Option.some.injEq, Prod.mk.injEq] at hdef
      obtain ⟨hb, rfl⟩ := hdef
      refine ⟨hb.symm, rfl, ?_, ?_, ?_, ?_⟩
      · simp only []
        omega
      · intro j _
        rfl
      · intro j hj1 hj2
        simp only [] at hj2
        omega
      · simp only []
        omega
  · intro hfit
    by_cases hge : i ≥ s.modified.length
    · exact ⟨State.mk i (resize [] s.modified (i + 1)),
        by simp only [select_table, hge, if_true, hw, hfit]⟩
    · exact ⟨State.mk i s.modified, by simp only [select_table, hge, if_false]⟩
  · intro hge hbig
    have hnot : ¬ i + 1 ≤ max_size := by omega
    simp only [select_table, ge_iff_le, hge, if_true, hw, hnot, if_false]

/-- Witness of C15 (amended): `select_table(3)` on the one-table mapping `[[7]]` returns with
table 3 selected and the mapping `[[7], [], [], []]`. -/
theorem C15_select_table_grows_witness :
    (true = true
        ∧ (3 : Nat) = 3
        ∧ ([[7], [], [], []] : List (List Nat)).length = max ([[7]] : List (List Nat)).length (3 + 1)
        ∧ (∀ j, j < ([[7]] : List (List Nat)).length
            → ([[7], [], [], []] : List (List Nat))[j]? = ([[7]] : List (List Nat))[j]?)
        ∧ (∀ j, ([[7]] : List (List Nat)).length ≤ j
            → j < ([[7], [], [], []] : List (List Nat)).length
            → ([[7], [], [], []] : List (List Nat))[j]? = some [])
        ∧ 3 < ([[7], [], [], []] : List (List Nat)).length)
      ∧ ∃ s1 : State, select_table { current_table := 0, modified := [[7]] } 3 = some (true, s1) :=
  ⟨(C15_select_table_grows { current_table := 0, modified := [[7]] } 3 (by norm_num)).1 true
      { current_table := 3, modified := [[7], [], [], []] } rfl,
    (C15_select_table_grows { current_table := 0, modified := [[7]] } 3 (by norm_num)).2.1
      (by decide)⟩

/-- C16 (fails on the code): with table 0 selected in the mapping `[[], []]`, the unordered
insert of one row at index 0 with `last_row_ndx = 2` records row 0 in table 0 and row 1 in
table 1: row `last_row_ndx - 1 = 1` is not in the selected table's sequence and the other
table has changed. With table 0 alone in the mapping the call has no defined result. -/
theorem C16_insert_empty_rows_unordered_marks_other_table :
    insert_empty_rows { current_table := 0, modified := [[], []] } 0 1 2 true
        = some (true, { current_table := 0, modified := [[0], [1]] })
      ∧ insert_empty_rows { current_table := 0, modified := [[]] } 0 1 2 true = none := by
  constructor <;> rfl

/-- C17: `rename_group_level_table` and the eighteen handlers with nothing to do return `true`
and the state they were called on, selection and mapping unchanged, for every state. -/
theorem C17_noop_handlers_leave_state (s : State) :
    rename_group_level_table s = some (true, s)
      ∧ row_insert_complete s = some (true, s)
      ∧ optimize_table s = some (true, s)
      ∧ select_descriptor s = some (true, s)
      ∧ insert_column s = some (true, s)
      ∧ insert_link_column s = some (true, s)
      ∧ erase_column s = some (true, s)
      ∧ erase_link_column s = some (true, s)
      ∧ rename_column s = some (true, s)
      ∧ add_search_index s = some (true, s)
      ∧ remove_search_index s = some (true, s)
      ∧ add_primary_key s = some (true, s)
      ∧ remove_primary_key s = some (true, s)
      ∧ set_link_type s = some (true, s)
      ∧ link_list_set s = some (true, s)
      ∧ link_list_insert s = some (true, s)
      ∧ link_list_move s = some (true, s)
      ∧ link_list_erase s = some (true, s)
      ∧ link_list_clear s = some (true, s) := by
  refine ⟨rfl, rfl, rfl, rfl, rfl, rfl, rfl, rfl, rfl, rfl, rfl, rfl, rfl, rfl, rfl, rfl, rfl,
    rfl, rfl⟩

/-- C20: frame of `mark_dirty` as written. For a mark-dirty instruction naming row `r`: when
`r` is below the length of the mapping the call returns `true`, keeps the selection and the
length of the mapping, leaves every entry at an index other than `r` as it was, and entry `r`
becomes itself when `r` is already a member and itself followed by `r` otherwise, whatever
table is selected; when `r` is not below the length the call has no defined result. -/
theorem C20_mark_dirty_frame (s : State) (i : Instr) (r : Nat) (hi : i.marked_row = some r) :
    (r < s.modified.length →
        ∃ s1 : State, i.run s = some (true, s1)
          ∧ s1.current_table = s.current_table
          ∧ s1.modified.length = s.modified.length
          ∧ (∀ j, j ≠ r → s1.modified[j]? = s.modified[j]?)
          ∧ s1.modified[r]? = some (if r ∈ s.modified.getD r [] then s.modified.getD r []
              else s.modified.getD r [] ++ [r]))
      ∧ (s.modified.length ≤ r → i.run s = none) := by
  rw [run_of_marked_row s i r hi]
  constructor
  · intro hr
    refine ⟨_, mark_dirty_of_lt s r hr, rfl, ?_, ?_, ?_⟩
    · simp only [List.length_set]
    · intro j hj
      simp only [List.getElem?_set, Ne.symm hj, if_false]
    · simp only [List.getElem?_set, if_true, List.getElem?_eq_getElem hr]
      rw [if_pos hr]
  · intro hr
    exact mark_dirty_of_ge s r hr

/-- Witness of C20: `set_string` for row 1 with table 0 selected, inside the two-table mapping
`[[5], [2]]` and outside the one-table mapping `[[5]]`. -/
theorem C20_mark_dirty_frame_witness :
    (∃ s1 : State, (Instr.set_string 1).run { current_table := 0, modified := [[5], [2]] }
            = some (true, s1)
          ∧ s1.current_table = 0
          ∧ s1.modified.length = ([[5], [2]] : List (List Nat)).length
          ∧ (∀ j, j ≠ 1 → s1.modified[j]? = ([[5], [2]] : List (List Nat))[j]?)
          ∧ s1.modified[1]? = some (if 1 ∈ ([[5], [2]] : List (List Nat)).getD 1 []
              then ([[5], [2]] : List (List Nat)).getD 1 []
              else ([[5], [2]] : List (List Nat)).getD 1 [] ++ [1]))
      ∧ (Instr.set_string 1).run { current_table := 0, modified := [[5]] } = none :=
  ⟨(C20_mark_dirty_frame { current_table := 0, modified := [[5], [2]] } (Instr.set_string 1) 1
      rfl).1 (by decide),
    (C20_mark_dirty_frame { current_table := 0, modified := [[5]] } (Instr.set_string 1) 1
      rfl).2 (by decide)⟩

namespace ModifiedRowParser

theorem PrefixExt.refl (m : List (List Nat)) : PrefixExt m m :=
  ⟨rfl, fun _ rows h => ⟨rows, h, List.prefix_refl rows⟩⟩

theorem PrefixExt.trans {m m1 m2 : List (List Nat)} (h1 : PrefixExt m m1)
    (h2 : PrefixExt m1 m2) : PrefixExt m m2 := by
  refine ⟨h2.1.trans h1.1, fun j rows hj => ?_⟩
  obtain ⟨rows1, hj1, hp1⟩ := h1.2 j rows hj
  obtain ⟨rows2, hj2, hp2⟩ := h2.2 j rows1 hj1
  exact ⟨rows2, hj2, hp1.trans hp2⟩

/-- A defined `mark_dirty` keeps the selection and only appends to dirty sequences. -/
theorem mark_dirty_ext (s s1 : State) (r : Nat) (b : Bool) (h : mark_dirty s r = some (b, s1)) :
    s1.current_table = s.current_table ∧ PrefixExt s.modified s1.modified := by
  by_cases hr : r < s.modified.length
  · rw [mark_dirty_of_lt s r hr] at h
    simp only [Option.some.injEq, Prod.mk.injEq] at h
    obtain ⟨_, rfl⟩ := h
    refine ⟨rfl, by simp only [List.length_set], fun j rows hj => ?_⟩
    by_cases hjr : j = r
    · subst hjr
      have hrows : s.modified.getD j [] = rows := by
        rw [List.getD_eq_getElem _ _ hr]
        rw [List.getElem?_eq_getElem hr] at hj
        exact Option.some.inj hj
      refine ⟨if j ∈ rows then rows else rows ++ [j], ?_, ?_⟩
      · simp only [List.getElem?_set, if_true, List.getElem?_eq_getElem hr]
        rw [if_pos hr, hrows]
      · by_cases hmem : j ∈ rows
        · rw [if_pos hmem]
        · rw [if_neg hmem]
          exact List.prefix_append rows [j]
    · exact ⟨rows, by simp only [List.getElem?_set, Ne.symm hjr, if_false, hj],
        List.prefix_refl rows⟩
  · rw [mark_dirty_of_ge s r (by omega)] at h
    cases h

theorem mark_dirty_loop_ext (row_ndx cnt i : Nat) (s s1 : State)
    (h : mark_dirty_loop row_ndx cnt i s = some s1) :
    s1.current_table = s.current_table ∧ PrefixExt s.modified s1.modified := by
  induction cnt generalizing i s with
  | zero =>
    simp only [mark_dirty_loop, Option.some.injEq] at h
    subst h
    exact ⟨rfl, PrefixExt.refl _⟩
  | succ k ih =>
    unfold mark_dirty_loop at h
    cases hmd : mark_dirty s (wadd row_ndx i) with
    | none =>
      rw [hmd] at h
      cases h
    | some p =>
      obtain ⟨b, s2⟩ := p
      rw [hmd] at h
      obtain ⟨hc2, he2⟩ := mark_dirty_ext s s2 _ b hmd
      obtain ⟨hc1, he1⟩ := ih (i + 1) s2 h
      exact ⟨hc1.trans hc2, he2.trans he1⟩

end ModifiedRowParser

/-- C19: the compaction pass of the unordered `erase_rows` removes nothing. With the selected
table inside the mapping, a defined call returns `true`, keeps the selection, and leaves
every table's dirty sequence, the selected table's among them, with its old content as a
prefix; with `num_rows = 0` the call is defined and returns the state unchanged. -/
theorem C19_erase_rows_unordered_keeps_prefix (s s1 : State) (rows : List Nat)
    (row_ndx num_rows last_row_ndx : Nat) (b : Bool)
    (hsel : s.modified[s.current_table]? = some rows)
    (hdef : erase_rows s row_ndx num_rows last_row_ndx true = some (b, s1)) :
    b = true
      ∧ s1.current_table = s.current_table
      ∧ (∃ rows1, s1.modified[s.current_table]? = some rows1 ∧ rows <+: rows1)
      ∧ PrefixExt s.modified s1.modified
      ∧ (num_rows = 0 → erase_rows s row_ndx num_rows last_row_ndx true = some (true, s) ∧ s1 = s) := by
  rw [erase_rows_unordered_eq s rows row_ndx num_rows last_row_ndx hsel] at hdef
  cases hloop : mark_dirty_loop row_ndx num_rows 0 s with
  | none =>
    rw [hloop] at hdef
    cases hdef
  | some s2 =>
    rw [hloop] at hdef
    simp only [Option.map_some', Option.some.injEq, Prod.mk.injEq] at hdef
    obtain ⟨hb, rfl⟩ := hdef
    obtain ⟨hcur, hext⟩ := mark_dirty_loop_ext row_ndx num_rows 0 s s2 hloop
    refine ⟨hb.symm, hcur, hext.2 _ rows hsel, hext, ?_⟩
    intro hzero
    subst hzero
    simp only [mark_dirty_loop, Option.some.injEq] at hloop
    subst hloop
    rw [erase_rows_unordered_eq s rows row_ndx 0 last_row_ndx hsel]
    exact ⟨rfl, rfl⟩

/-- Witness of C19: the unordered erase of two rows at index 0 with table 0 selected in the
mapping `[[1, 3], []]`. -/
theorem C19_erase_rows_unordered_keeps_prefix_witness :
    true = true
      ∧ (0 : Nat) = 0
      ∧ (∃ rows1, ([[1, 3, 0], [1]] : List (List Nat))[0]? = some rows1 ∧ [1, 3] <+: rows1)
      ∧ PrefixExt [[1, 3], []] [[1, 3, 0], [1]]
      ∧ (2 = 0 → erase_rows { current_table := 0, modified := [[1, 3], []] } 0 2 5 true
            = some (true, { current_table := 0, modified := [[1, 3], []] })
          ∧ ({ current_table := 0, modified := [[1, 3, 0], [1]] } : State)
            = { current_table := 0, modified := [[1, 3], []] }) :=
  C19_erase_rows_unordered_keeps_prefix { current_table := 0, modified := [[1, 3], []] }
    { current_table := 0, modified := [[1, 3, 0], [1]] } [1, 3] 0 2 5 true rfl rfl

namespace ModifiedRowParser

theorem wsub_eq_sub {a b : Nat} (ha : a < 2 ^ 64) (hb : b ≤ a) : wsub a b = a - b := by
  have hM : (2 : Nat) ^ 64 = 18446744073709551616 := by norm_num
  rw [hM] at ha
  unfold wsub SIZE_MOD
  rw [hM]
  omega

theorem wsub_eq_wrap {a b : Nat} (hb : b < 2 ^ 64) (hab : a < b) :
    wsub a b = 2 ^ 64 - (b - a) := by
  have hM : (2 : Nat) ^ 64 = 18446744073709551616 := by norm_num
  rw [hM] at hb
  unfold wsub SIZE_MOD
  rw [hM]
  omega

theorem take_succ_set (l : List Nat) (n v : Nat) (h : n < l.length) :
    (l.set n v).take (n + 1) = l.take n ++ [v] := by
  induction l generalizing n with
  | nil => simp at h
  | cons x xs ih =>
    cases n with
    | zero => simp
    | succ k =>
      simp only [List.length_cons, Nat.add_lt_add_iff_right] at h
      simp [ih k h]

/-- The ordered loop of `erase_rows` from position `p` with write cursor `out <= p`: the first
`out` entries are kept and followed by what the loop stores for the entries from `p` on. -/
theorem erase_ordered_loop_take (row_ndx num_rows cnt p out : Nat) (rows : List Nat)
    (hlen : p + cnt = rows.length) (hout : out ≤ p) :
    (erase_ordered_loop row_ndx num_rows cnt p out rows).1.take
        (erase_ordered_loop row_ndx num_rows cnt p out rows).2
      = rows.take out ++ (rows.drop p).filterMap (erase_ordered_keep row_ndx num_rows) := by
  induction cnt generalizing p out rows with
  | zero =>
    have hp : rows.drop p = [] := List.drop_eq_nil_of_le (by omega)
    simp [erase_ordered_loop, hp]
  | succ k ih =>
    have hp : p < rows.length := by omega
    have hdrop : rows.drop p = rows[p] :: rows.drop (p + 1) := List.drop_eq_getElem_cons hp
    have hrow : rows.getD p 0 = rows[p] := List.getD_eq_getElem _ _ hp
    unfold erase_ordered_loop
    simp only [hrow]
    rw [hdrop, List.filterMap_cons]
    by_cases h1 : rows[p] ≥ row_ndx ∧ rows[p] < wsub row_ndx num_rows
    · rw [if_pos h1, ih (p + 1) out rows (by omega) (by omega)]
      simp only [erase_ordered_keep, if_pos h1]
    · rw [if_neg h1]
      by_cases h2 : rows[p] ≥ row_ndx
      · rw [if_pos h2, ih (p + 1) (out + 1) _ (by simp only [List.length_set]; omega) (by omega)]
        rw [take_succ_set rows out _ (by omega), List.drop_set_of_lt _ _ (by omega)]
        simp only [erase_ordered_keep, if_neg h1, if_pos h2, List.append_assoc,
          List.singleton_append]
      · rw [if_neg h2, ih (p + 1) (out + 1) _ (by simp only [List.length_set]; omega) (by omega)]
        rw [take_succ_set rows out _ (by omega), List.drop_set_of_lt _ _ (by omega)]
        simp only [erase_ordered_keep, if_neg h1, if_neg h2, List.append_assoc,
          List.singleton_append]

/-- The ordered `erase_rows` replaces the selected table's sequence by what the loop stores for
each of its entries, in order. -/
theorem erase_rows_ordered_eq (s : State) (rows : List Nat)
    (row_ndx num_rows last_row_ndx : Nat) (h : s.modified[s.current_table]? = some rows) :
    erase_rows s row_ndx num_rows last_row_ndx false
      = some (true, State.mk s.current_table (s.modified.set s.current_table
          (rows.filterMap (erase_ordered_keep row_ndx num_rows)))) := by
  unfold erase_rows
  rw [h]
  simp only [Bool.false_eq_true, if_false]
  rw [erase_ordered_loop_take row_ndx num_rows rows.length 0 0 rows (by omega) (by omega)]
  simp

theorem filterMap_eq_map_of_forall {f : Nat → Option Nat} {g : Nat → Nat} (l : List Nat)
    (h : ∀ r ∈ l, f r = some (g r)) : l.filterMap f = l.map g := by
  induction l with
  | nil => rfl
  | cons x xs ih =>
    rw [List.filterMap_cons, h x (List.mem_cons_self x xs), List.map_cons,
      ih (fun r hr => h r (List.mem_cons_of_mem x hr))]

theorem filterMap_eq_filter_of_forall {f : Nat → Option Nat} {q : Nat → Bool} (l : List Nat)
    (h : ∀ r ∈ l, f r = if q r = true then some r else none) : l.filterMap f = l.filter q := by
  induction l with
  | nil => rfl
  | cons x xs ih =>
    rw [List.filterMap_cons, h x (List.mem_cons_self x xs), List.filter_cons,
      ih (fun r hr => h r (List.mem_cons_of_mem x hr))]
    by_cases hq : q x = true
    · simp only [hq, if_true]
    · simp only [hq, if_false]
      rfl

end ModifiedRowParser

/-- C18, counterexample: with `row_ndx < num_rows` an entry at or above
`2^64 - (num_rows - row_ndx)` is not dropped. Erasing one row at index 0 from the dirty
sequence `[2^64 - 1]` stores `2^64 - 2`, and erasing `2^64 - 1` rows at index 0 from `[5]`
stores `5 - (2^64 - 1)`, which wraps to 6. -/
theorem C18_erase_rows_ordered_large_entry_kept :
    erase_rows { current_table := 0, modified := [[18446744073709551615]] } 0 1 0 false
        = some (true, { current_table := 0, modified := [[18446744073709551614]] })
      ∧ erase_rows { current_table := 0, modified := [[5]] } 0 18446744073709551615 0 false
        = some (true, { current_table := 0, modified := [[6]] }) := by
  constructor <;> rfl

/-- C18, amended: exact behaviour of the ordered `erase_rows` on `size_t` values, for a
selected table inside the mapping with dirty sequence `rows`. The call returns `true` and
replaces the sequence by one that is never longer. If `row_ndx >= num_rows` the new sequence
is `rows` with every entry `r >= row_ndx` replaced by `r - num_rows`; it has the length of
`rows` and no subtraction goes below zero. If `row_ndx < num_rows` and every entry is below
`2^64 - (num_rows - row_ndx)`, the new sequence is the sub-sequence of the entries
`r < row_ndx`, unchanged, and no subtraction is made. -/
theorem C18_erase_rows_ordered_exact (s : State) (rows : List Nat)
    (row_ndx num_rows last_row_ndx : Nat)
    (hsel : s.modified[s.current_table]? = some rows)
    (hr : row_ndx < 2 ^ 64) (hn : num_rows < 2 ^ 64) (hrows : ∀ r ∈ rows, r < 2 ^ 64)
    (hbig : row_ndx < num_rows → ∀ r ∈ rows, r + (num_rows - row_ndx) < 2 ^ 64) :
    ∃ rows1 : List Nat,
      erase_rows s row_ndx num_rows last_row_ndx false
          = some (true, State.mk s.current_table (s.modified.set s.current_table rows1))
      ∧ rows1.length ≤ rows.length
      ∧ (num_rows ≤ row_ndx →
          rows1 = rows.map (fun r => if r ≥ row_ndx then r - num_rows else r)
            ∧ rows1.length = rows.length
            ∧ ∀ r ∈ rows, r ≥ row_ndx → num_rows ≤ r)
      ∧ (row_ndx < num_rows → rows1 = rows.filter (fun r => decide (r < row_ndx))) := by
  refine ⟨rows.filterMap (erase_ordered_keep row_ndx num_rows),
    erase_rows_ordered_eq s rows row_ndx num_rows last_row_ndx hsel,
    List.length_filterMap_le _ _, ?_, ?_⟩
  · intro hle
    have hmap : rows.filterMap (erase_ordered_keep row_ndx num_rows)
        = rows.map (fun r => if r ≥ row_ndx then r - num_rows else r) := by
      apply filterMap_eq_map_of_forall
      intro r hmem
      have hw : wsub row_ndx num_rows = row_ndx - num_rows := wsub_eq_sub hr hle
      unfold erase_ordered_keep
      rw [hw, if_neg (by omega)]
      by_cases hge : r ≥ row_ndx
      · rw [if_pos hge, if_pos hge, wsub_eq_sub (hrows r hmem) (by omega)]
      · rw [if_neg hge, if_neg hge]
    refine ⟨hmap, ?_, ?_⟩
    · rw [hmap, List.length_map]
    · intro r _ hge
      omega
  · intro hlt
    apply filterMap_eq_filter_of_forall
    intro r hmem
    have hw : wsub row_ndx num_rows = 2 ^ 64 - (num_rows - row_ndx) := wsub_eq_wrap hn hlt
    have hb := hbig hlt r hmem
    unfold erase_ordered_keep
    rw [hw]
    by_cases hge : r ≥ row_ndx
    · rw [if_pos ⟨hge, by omega⟩, if_neg (by simp only [decide_eq_true_eq]; omega)]
    · rw [if_neg (by omega), if_neg hge, if_pos (by simp only [decide_eq_true_eq]; omega)]

/-- Witness of C18 (amended): five rows erased at index 3 from the dirty sequence
`[0, 1, 5, 7]`, a call with `row_ndx < num_rows`. -/
theorem C18_erase_rows_ordered_exact_witness :
    ∃ rows1 : List Nat,
      erase_rows { current_table := 0, modified := [[0, 1, 5, 7]] } 3 5 0 false
          = some (true, State.mk 0 (([[0, 1, 5, 7]] : List (List Nat)).set 0 rows1))
      ∧ rows1.length ≤ ([0, 1, 5, 7] : List Nat).length
      ∧ (5 ≤ 3 →
          rows1 = ([0, 1, 5, 7] : List Nat).map (fun r => if r ≥ 3 then r - 5 else r)
            ∧ rows1.length = ([0, 1, 5, 7] : List Nat).length
            ∧ ∀ r ∈ ([0, 1, 5, 7] : List Nat), r ≥ 3 → 5 ≤ r)
      ∧ (3 < 5 → rows1 = ([0, 1, 5, 7] : List Nat).filter (fun r => decide (r < 3))) :=
  C18_erase_rows_ordered_exact { current_table := 0, modified := [[0, 1, 5, 7]] } [0, 1, 5, 7]
    3 5 0 rfl (by norm_num) (by norm_num) (by decide) (by decide)
